import Mathlib

/-!
# A verification model of the nathanleary/neural-net engine

Shallow embedding of the Go feed-forward neural-network engine
(package `deep` plus its `training` subpackage) in Lean 4, together with
theorems settling the frozen claims about it.

Modelling conventions:
* `float32` arithmetic is idealised as exact rational arithmetic (`Rat`);
  the transcendental float library functions (`math.Exp`, `math.Log`,
  `math.Tanh` of chewxy/math32) are abstracted as an arbitrary `RealOps`
  record, since their values are irrelevant to every claim below.
* Go's pointer graph (a neuron's `Out` synapses alias the next layer's
  `In` synapses; `Neural.Biases` aliases the `IsBias`-flagged synapses
  inside the `In` lists) is replaced by explicit structural propagation:
  firing a layer writes into the next layer's `In` synapses directly,
  and bias firing walks the `In` lists looking at the `IsBias` flag.
* Go enumerations backed by `int` (`ActivationType`, `Mode`, `LossType`)
  are kept as `Int` constants so that a `switch` with a `default` branch
  keeps its meaning for out-of-range tags.
* Stateful methods on a pointer receiver are pure functions returning the
  updated value; methods on a value receiver that mutate their receiver
  return the mutated copy so that the caller can (faithfully) drop it.
-/

/-- Abstraction of the float32 math library functions the activation
functions call (`math.Exp`, `math.Log`, `math.Tanh`). -/
structure RealOps where
  exp : Rat → Rat
  log : Rat → Rat
  tanh : Rat → Rat

/-- `Logistic(x, a) = 1 / (1 + Exp(-a*x))` (activation.go). -/
def Logistic (ops : RealOps) (x a : Rat) : Rat :=
  1 / (1 + ops.exp (-(a * x)))

/-! ## ActivationType, Mode and LossType tags

`ActivationType` and `Mode` constants are from src/activation.go.
The `LossType` constants live in the repository's loss file, which is not
under src/; they are modelled from the spec and from how src/neural.go and
the tests use them (four distinct tags, `LossNone` the zero value). -/

def ActivationNone : Int := 0
def ActivationSigmoid : Int := 1
def ActivationTanh : Int := 2
def ActivationReLU : Int := 3
def ActivationLinear : Int := 4
def ActivationSoftmax : Int := 5
def ActivationELU : Int := 6
def ActivationSwish : Int := 7
def ActivationMish : Int := 8

def ModeDefault : Int := 0
def ModeMultiClass : Int := 1
def ModeRegression : Int := 2
def ModeBinary : Int := 3
def ModeMultiLabel : Int := 4

/-- Modelled from the spec: the loss-kind enum (`LossType`) of the loss
file, which is not under src/; `LossNone` is Go's zero value, the other
three are the distinct tags src/neural.go assigns. -/
def LossNone : Int := 0

/-- Modelled from the spec: see `LossNone`. -/
def LossCrossEntropy : Int := 1

/-- Modelled from the spec: see `LossNone`. -/
def LossBinaryCrossEntropy : Int := 2

/-- Modelled from the spec: see `LossNone`. -/
def LossMeanSquared : Int := 3

/-- The concrete activation strategy `GetActivation` returns
(src/activation.go): one case per struct of the file. -/
inductive ActKind where
  | sigmoid
  | tanh
  | relu
  | elu
  | swish
  | mish
  | linear
deriving DecidableEq

/-- `GetActivation` (src/activation.go lines 35-55): the softmax marker and
every unknown tag dispatch to `Linear`. -/
def GetActivation (a : Int) : ActKind :=
  if a = ActivationSigmoid then .sigmoid
  else if a = ActivationTanh then .tanh
  else if a = ActivationReLU then .relu
  else if a = ActivationELU then .elu
  else if a = ActivationSwish then .swish
  else if a = ActivationMish then .mish
  else if a = ActivationLinear then .linear
  else if a = ActivationSoftmax then .linear
  else .linear

/-- `math.SmallestNonzeroFloat32`, exactly `2 ^ (-149)`. -/
def smallestNonzeroF32 : Rat := 1 / 2 ^ 149

/-- The value component of each activation's `F(x, training)`
(src/activation.go).  The `training` flag only controls writes into the
memo map of the method's value-receiver copy, which the caller discards
(see the Swish state model below), so the returned value never depends
on it.  The float literal `0.0000001` of `eLU.F` is idealised as `1e-7`,
and `math.Pow(math.E, x)` as `exp x`. -/
def ActKind.F (k : ActKind) (ops : RealOps) (x : Rat) : Rat :=
  match k with
  | .sigmoid => Logistic ops x 1
  | .tanh => (1 - ops.exp (-(2 * x))) / (1 + ops.exp (-(2 * x)))
  | .relu => max x 0
  | .elu =>
      if x ≥ 0 then x + 1 / 10000000
      else 1 * ops.exp x * (-1) + smallestNonzeroF32
  | .swish => x * Logistic ops x 1
  | .mish => x * ops.tanh (ops.log (1 + ops.exp x))
  | .linear => x

/-- `GetActivation(a).F(x, training)`, value component. -/
def activationF (ops : RealOps) (a : Int) (x : Rat) : Rat :=
  (GetActivation a).F ops x

/-! ## The graph model (src/unnamed/part_004, src/neural.go) -/

/-- `Synapse` (part_004): weight plus the transient `In`/`Out` scan values
of the latest forward pass, and the bias flag. -/
structure Synapse where
  Weight : Rat
  In : Rat
  Out : Rat
  IsBias : Bool
deriving DecidableEq

/-- `Synapse.fire` (part_004): `s.In = value; s.Out = s.In * s.Weight`. -/
def Synapse.fire (s : Synapse) (value : Rat) : Synapse :=
  { s with In := value, Out := value * s.Weight }

/-- `Neuron` (part_004).  The Go struct also holds `Out []*Synapse`,
back-references into the next layer's `In` lists; the pure model
propagates into the next layer structurally instead (see `propagate`). -/
structure Neuron where
  A : Int
  In : List Synapse
  Value : Rat
deriving DecidableEq

/-- `Neuron.Activate` (part_004): `GetActivation(n.A).F(x, training)`.
The temporary activation value built by `GetActivation`, together with any
memo entry `F` wrote into it, is dropped on return. -/
def Neuron.Activate (nr : Neuron) (ops : RealOps) (x : Rat) (training : Bool) : Rat :=
  activationF ops nr.A x

/-- `Layer` (the layer file is not under src/; the spec's §3 data model:
an ordered sequence of neurons).  `Neuron.DActivate` dispatches through
`GetActivation` exactly as `Activate` does; the Swish derivative's memo
handling is modelled separately below. -/
def Layer := List Neuron
deriving DecidableEq

/-- `Layer.fire` step one (the spec's §4.1 layer firing, part_004's
`Neuron.fire`): each neuron sums its incoming synapses' `Out` values and
stores the activation of the sum as its `Value`. -/
def fireNeurons (ops : RealOps) (training : Bool) (l : Layer) : Layer :=
  l.map fun nr =>
    { nr with Value := nr.Activate ops ((nr.In.map Synapse.Out).sum) training }

/-- Fire the leading synapses of a list with the given input values, one
value per synapse, leaving trailing synapses (the appended bias synapse)
untouched — the pure counterpart of writing through the previous layer's
`Out` pointers, whose count equals the previous layer's neuron count. -/
def fireSynapses : List Synapse → List Rat → List Synapse
  | ss, [] => ss
  | [], _ :: _ => []
  | s :: ss, v :: vs => s.fire v :: fireSynapses ss vs

/-- Write the previous layer's neuron values into a layer's incoming
synapses (part_004's `Neuron.fire` firing its `Out` synapses, seen from
the receiving side). -/
def propagate (vals : List Rat) (l : Layer) : Layer :=
  l.map fun nr => { nr with In := fireSynapses nr.In vals }

/-- `Neural` (src/neural.go).  `Biases` is omitted: in Go it aliases
exactly the `IsBias`-flagged synapses inside the `In` lists, which is how
this model reaches them (`fireBiases`). -/
structure Config where
  Inputs : Nat
  Layout : List Nat
  Activation : List Int
  Mode : Int
  Loss : Int
  Bias : Bool
  Significance : Rat
  Shift : Rat
deriving DecidableEq

structure Neural where
  Shift : List Rat
  Significance : List Rat
  Layers : List Layer
  config : Config
deriving DecidableEq

/-- Bias firing (src/neural.go `Neural.fire` first loop): every bias
synapse is fired with input 1. -/
def Synapse.fireBias (s : Synapse) : Synapse :=
  if s.IsBias then s.fire 1 else s

def Neural.fireBiases (n : Neural) : Neural :=
  { n with
    Layers := n.Layers.map fun l => l.map fun nr =>
      { nr with In := nr.In.map Synapse.fireBias } }

/-- The layer-by-layer loop of `Neural.fire`: each layer receives the
previous layer's values into its incoming synapses (none for the first
layer, whose synapses were fired by `Forward`) and then fires its
neurons. -/
def fireLayers (ops : RealOps) (training : Bool) :
    Option (List Rat) → List Layer → List Layer
  | _, [] => []
  | prevVals, l :: rest =>
      let l0 := match prevVals with
        | some vs => propagate vs l
        | none => l
      let l1 := fireNeurons ops training l0
      l1 :: fireLayers ops training (some (l1.map Neuron.Value)) rest

/-- `Neural.fire` (src/neural.go): biases first, then the layers in
order. -/
def Neural.fire (n : Neural) (ops : RealOps) (training : Bool) : Neural :=
  let n1 := n.fireBiases
  { n1 with Layers := fireLayers ops training none n1.Layers }

/-- `(input[i] + n.Shift[i]) * n.Significance[i]` for each input index
(src/neural.go `Forward`); by the construction invariant all three lists
have length `Config.Inputs` when this is reached. -/
def transformInputs : List Rat → List Rat → List Rat → List Rat
  | x :: xs, a :: sh, b :: sg => ((x + a) * b) :: transformInputs xs sh sg
  | _, _, _ => []

/-- `Neural.Forward` (src/neural.go lines 139-156).  The Go method
returns an `error` and mutates the receiver; here it returns the updated
network and the optional error message. -/
def Neural.Forward (n : Neural) (ops : RealOps) (input : List Rat)
    (training : Bool) : Neural × Option String :=
  if input.length ≠ n.config.Inputs then
    (n, some "Invalid input dimension")
  else
    let vals := transformInputs input n.Shift n.Significance
    let n1 := { n with
      Layers := match n.Layers with
        | [] => []
        | l :: rest => propagate vals l :: rest }
    (n1.fire ops training, none)

/-- `Neural.Predict` (src/neural.go lines 159-169): the `Forward` error
is discarded, and the final layer's neuron values are read off the
receiver.  The updated receiver is returned alongside the output. -/
def Neural.Predict (n : Neural) (ops : RealOps) (input : List Rat) :
    List Rat × Neural :=
  let n1 := (n.Forward ops input false).1
  (((n1.Layers.getLastD ([] : Layer)).map Neuron.Value), n1)

/-- `Neural.NumWeights` (src/neural.go lines 172-179). -/
def Neural.NumWeights (n : Neural) : Nat :=
  (n.Layers.map fun l => (l.map fun nr => nr.In.length).sum).sum

/-! ## Persistence: Weights and ApplyWeights (src/persist.go) -/

/-- `Neural.Weights` (src/persist.go lines 26-39): the weights as a
`[layer][neuron][synapse]` nested sequence, in traversal order. -/
def Neural.Weights (n : Neural) : List (List (List Rat)) :=
  n.Layers.map fun l => l.map fun nr => nr.In.map Synapse.Weight

/-- Innermost loop of `ApplyWeights`: `n.In[k].Weight = weights[i][j][k]`
for each `k` in range of the neuron's synapse list.  Go indexes `weights`
positionally (and would panic were it shorter than the synapse list), so
the walk pairs the two lists. -/
def setSynapseWeights : List Synapse → List Rat → List Synapse
  | ss, [] => ss
  | [], _ :: _ => []
  | s :: ss, w :: ws => { s with Weight := w } :: setSynapseWeights ss ws

def setNeuronWeights : List Neuron → List (List Rat) → List Neuron
  | ns, [] => ns
  | [], _ :: _ => []
  | nr :: ns, ws :: wss => { nr with In := setSynapseWeights nr.In ws } :: setNeuronWeights ns wss

def setLayerWeights : List Layer → List (List (List Rat)) → List Layer
  | ls, [] => ls
  | [], _ :: _ => []
  | l :: ls, ws :: wss => setNeuronWeights l ws :: setLayerWeights ls wss

/-- `Neural.ApplyWeights` (src/persist.go lines 16-24): writes the nested
weight slice into the synapses, layer by layer, neuron by neuron, synapse
by synapse; no other field is touched. -/
def Neural.ApplyWeights (n : Neural) (weights : List (List (List Rat))) : Neural :=
  { n with Layers := setLayerWeights n.Layers weights }

theorem setSynapseWeights_self (ss : List Synapse) :
    setSynapseWeights ss (ss.map Synapse.Weight) = ss := by
  induction ss with
  | nil => rfl
  | cons s ss ih => simp [setSynapseWeights, ih]

theorem setNeuronWeights_self (ns : List Neuron) :
    setNeuronWeights ns (ns.map fun nr => nr.In.map Synapse.Weight) = ns := by
  induction ns with
  | nil => rfl
  | cons nr ns ih => simp [setNeuronWeights, setSynapseWeights_self, ih]

theorem setLayerWeights_self (ls : List Layer) :
    setLayerWeights ls (ls.map fun l => l.map fun nr => nr.In.map Synapse.Weight) = ls := by
  induction ls with
  | nil => rfl
  | cons l ls ih => simp [setLayerWeights, setNeuronWeights_self, ih]

/-- C4: `ApplyWeights(Weights())` is the identity on the network: every
synapse weight keeps its value and no other network state (synapse scan
values, bias flags, neuron values and activations, shift/significance,
config) is modified. -/
theorem applyWeights_weights_id (n : Neural) :
    n.ApplyWeights n.Weights = n := by
  cases n with
  | mk sh sg ls cfg =>
      simp [Neural.ApplyWeights, Neural.Weights, setLayerWeights_self]

/-! ## NewNeural's loss defaulting (src/neural.go lines 43-61) -/

/-- The config mutation at the top of `NewNeural`: when `c.Loss` is the
zero value, the loss kind is defaulted from the inference mode
(`switch c.Mode` with a `default` arm); an explicitly set loss is kept. -/
def NewNeuralLossConfig (c : Config) : Config :=
  { c with
    Loss :=
      if c.Loss = LossNone then
        if c.Mode = ModeMultiClass ∨ c.Mode = ModeMultiLabel then LossCrossEntropy
        else if c.Mode = ModeBinary then LossBinaryCrossEntropy
        else LossMeanSquared
      else c.Loss }

/-- C9: when `Config.Loss` is unset, `NewNeural` derives it from the
inference mode — cross-entropy for multi-class and multi-label,
binary-cross-entropy for binary, mean-squared for every other mode value —
and an explicitly set loss is left unchanged. -/
theorem newNeural_loss_defaults :
    (∀ c : Config, c.Loss = LossNone → c.Mode = ModeMultiClass →
        (NewNeuralLossConfig c).Loss = LossCrossEntropy)
    ∧ (∀ c : Config, c.Loss = LossNone → c.Mode = ModeMultiLabel →
        (NewNeuralLossConfig c).Loss = LossCrossEntropy)
    ∧ (∀ c : Config, c.Loss = LossNone → c.Mode = ModeBinary →
        (NewNeuralLossConfig c).Loss = LossBinaryCrossEntropy)
    ∧ (∀ c : Config, c.Loss = LossNone →
        c.Mode ≠ ModeMultiClass → c.Mode ≠ ModeMultiLabel → c.Mode ≠ ModeBinary →
        (NewNeuralLossConfig c).Loss = LossMeanSquared)
    ∧ (∀ c : Config, c.Loss ≠ LossNone → NewNeuralLossConfig c = c) := by
  refine ⟨?_, ?_, ?_, ?_, ?_⟩
  · intro c h0 hm
    simp [NewNeuralLossConfig, h0, hm]
  · intro c h0 hm
    simp [NewNeuralLossConfig, h0, hm, ModeMultiLabel, ModeMultiClass]
  · intro c h0 hm
    simp [NewNeuralLossConfig, h0, hm, ModeBinary, ModeMultiClass, ModeMultiLabel]
  · intro c h0 h1 h2 h3
    simp [NewNeuralLossConfig, h0, h1, h2, h3]
  · intro c h0
    simp [NewNeuralLossConfig, h0]

/-! ## The SGD solver (src/training/solver.go lines 11-46) -/

/-- `SGD` (solver.go): learning rate, decay, momentum, the nesterov flag
and the per-weight momentum accumulators allocated by `Init`. -/
structure SGD where
  lr : Rat
  decay : Rat
  momentum : Rat
  nesterov : Bool
  moments : List Rat
deriving DecidableEq

/-- `SGD.Init(size)`: `o.moments = make([]float32, size)`. -/
def SGD.Init (o : SGD) (size : Nat) : SGD :=
  { o with moments := List.replicate size 0 }

/-- `SGD.Update(value, gradient, iteration, idx)` (solver.go lines 36-46),
statement by statement: compute the decayed rate, overwrite
`moments[idx]`, overwrite it a second time when nesterov is set, return
`moments[idx]`.  Go reads `o.moments[idx]` by index (a panic when out of
range); the read is `getD` here and the theorems carry the in-range
hypothesis `Init` establishes. -/
def SGD.Update (o : SGD) (value gradient : Rat) (iteration idx : Nat) :
    Rat × SGD :=
  let lr := o.lr / (1 + o.decay * (iteration : Rat))
  let moments1 := o.moments.set idx (o.momentum * o.moments.getD idx 0 - lr * gradient)
  let moments2 :=
    if o.nesterov then
      moments1.set idx (o.momentum * moments1.getD idx 0 - lr * gradient)
    else moments1
  (moments2.getD idx 0, { o with moments := moments2 })

theorem getD_set_self (l : List Rat) (i : Nat) (x : Rat) (h : i < l.length) :
    (l.set i x).getD i 0 = x := by
  induction l generalizing i with
  | nil => simp at h
  | cons a l ih =>
      cases i with
      | zero => rfl
      | succ i =>
          simp only [List.set_cons_succ, List.getD_cons_succ]
          exact ih i (by simpa using h)

/-- C8: one `SGD.Update(value, gradient, iteration, idx)` call uses the
effective rate `lr/(1+decay*iteration)`, rewrites the `idx`-th momentum
accumulator to `momentum*m - lr*gradient`, repeats that same recompute
once more when nesterov is set, and returns the final accumulator value
as the weight delta (the current `value` plays no part). -/
theorem sgd_update_spec (o : SGD) (value gradient : Rat) (iteration idx : Nat)
    (h : idx < o.moments.length) :
    SGD.Update o value gradient iteration idx =
      (let lr := o.lr / (1 + o.decay * (iteration : Rat))
       let m1 := o.momentum * o.moments.getD idx 0 - lr * gradient
       let m2 := if o.nesterov then o.momentum * m1 - lr * gradient else m1
       (m2, { o with moments := o.moments.set idx m2 })) := by
  cases hn : o.nesterov <;>
    simp [SGD.Update, hn, List.set_set, List.getD,
      List.getElem?_set_eq_of_lt _ (show idx < o.moments.length from h),
      List.getElem?_set_eq_of_lt _ (show idx < (o.moments.set idx _).length by simpa using h)]

/-- Concrete run of `sgd_update_spec`: with `lr = 1`, `decay = 1`,
`momentum = 1/2`, nesterov on, accumulators `[0, 0]`, gradient `1` at
iteration `1`, index `0`: the decayed rate is `1/2`, the first momentum
write gives `-1/2`, the nesterov recompute gives `-3/4`, which is the
returned delta. -/
theorem sgd_update_spec_witness :
    SGD.Update ⟨1, 1, 1/2, true, [0, 0]⟩ 0 1 1 0 =
      (let lr := (1 : Rat) / (1 + 1 * ((1 : Nat) : Rat))
       let m1 := (1/2 : Rat) * ([ (0 : Rat), 0].getD 0 0) - lr * 1
       let m2 := if true then (1/2 : Rat) * m1 - lr * 1 else m1
       (m2, ⟨1, 1, 1/2, true, [(0 : Rat), 0].set 0 m2⟩)) :=
  sgd_update_spec ⟨1, 1, 1/2, true, [0, 0]⟩ 0 1 1 0 (by simp)

/-! ## Forward and Predict (claims C5, C6, C10) -/

/-- C5: `Forward(input, training)` reports an error exactly when
`len(input) ≠ Config.Inputs`; the error is returned synchronously as a
value (never a panic), and in that case the network — every synapse's
weight and scan values and every neuron's value — is exactly as before
the call.  The success path fires the network and reports no error. -/
theorem forward_dimension_mismatch (ops : RealOps) (n : Neural)
    (input : List Rat) (training : Bool) :
    (((n.Forward ops input training).2 ≠ none) ↔ input.length ≠ n.config.Inputs)
    ∧ (input.length ≠ n.config.Inputs →
        n.Forward ops input training = (n, some "Invalid input dimension")) := by
  by_cases h : input.length = n.config.Inputs <;>
    simp [Neural.Forward, h]

/-- C6: `Predict(input)` runs `Forward` with `training = false` and
returns the final layer's neuron values verbatim and in order; the
softmax marker dispatches to the `Linear` strategy, whose `F` is the
identity, so no softmax normalisation can occur anywhere in the
pipeline. -/
theorem predict_returns_raw_values (ops : RealOps) (n : Neural)
    (input : List Rat) :
    ((n.Predict ops input).1 =
        (((n.Forward ops input false).1.Layers.getLastD ([] : Layer)).map Neuron.Value)
      ∧ (n.Predict ops input).2 = (n.Forward ops input false).1)
    ∧ GetActivation ActivationSoftmax = ActKind.linear
    ∧ (∀ x : Rat, ActKind.F .linear ops x = x) := by
  refine ⟨⟨rfl, rfl⟩, by decide, fun x => rfl⟩

/-- C10: `Predict` discards the `Forward` error.  When
`len(input) ≠ Config.Inputs` it neither fails nor signals anything: the
network is left untouched and the returned vector is whatever `Value`s
the output layer currently holds — the result of the most recent
successful forward pass, or the zero values a fresh network starts
with. -/
theorem predict_swallows_dimension_error (ops : RealOps) (n : Neural)
    (input : List Rat) (h : input.length ≠ n.config.Inputs) :
    n.Predict ops input =
      (((n.Layers.getLastD ([] : Layer)).map Neuron.Value), n) := by
  simp [Neural.Predict, Neural.Forward, h]

/-- A fresh two-layer network whose neurons' values are the Go zero value
`0`; used to exercise `predict_swallows_dimension_error` concretely. -/
def staleNet : Neural :=
  { Shift := [0, 0]
    Significance := [1, 1]
    Layers := [show Layer from
                 [{ A := ActivationSigmoid
                    In := [{ Weight := 1, In := 0, Out := 0, IsBias := false },
                           { Weight := 2, In := 0, Out := 0, IsBias := false }]
                    Value := 0 }],
               show Layer from
                 [{ A := ActivationSoftmax
                    In := [{ Weight := 3, In := 0, Out := 0, IsBias := false }]
                    Value := 0 }]]
    config := { Inputs := 2, Layout := [1, 1], Activation := [ActivationSigmoid],
                Mode := ModeMultiClass, Loss := LossNone, Bias := false,
                Significance := 0, Shift := 0 } }

def anyOps : RealOps := { exp := fun x => x, log := fun x => x, tanh := fun x => x }

/-- `Predict` on `staleNet` with a 1-element input (the config wants 2):
no failure, the network is unchanged, and the output is the stale zero
`Value` of the single output neuron. -/
theorem predict_swallows_dimension_error_witness :
    staleNet.Predict anyOps [5] = ([0], staleNet) :=
  predict_swallows_dimension_error anyOps staleNet [5] (by decide)

/-! ## FilterNoise (src/training/batchTrainer.go lines 73-121, claim C7)

`crossValidate` lives in the trainer file, which is not under src/;
following the spec it is a pure validation-loss evaluator of the network
(it runs forward passes and folds the loss, and touches neither the
`Shift` nor the `Significance` vector), so it enters the model as an
arbitrary function `cv : Neural → Rat` with the training examples
absorbed into it.  The three random draws of the Go function — `ri =
random.Intn(n.Config.Inputs)`, `rf = random.Float32()`, `ra =
random.Float32()*2-1` — are passed in as arguments. -/

/-- `FilterNoise(n, examples, Significance, Shift)`; the two magnitude
parameters are `sigAmt` and `shiftAmt` here to keep them apart from the
network's vectors of the same Go name.  Returns the reported loss and
the network state after the call. -/
def FilterNoise (cv : Neural → Rat) (n : Neural) (sigAmt shiftAmt : Rat)
    (ri : Nat) (rf ra : Rat) : Rat × Neural :=
  if shiftAmt ≠ 0 ∨ sigAmt ≠ 0 then
    let acc := cv n
    let rf1 := if sigAmt = 0 then 1 else if shiftAmt = 0 then 0 else rf
    if rf1 > 1/2 then
      let n1 := { n with Shift := n.Shift.set ri (n.Shift.getD ri 0 + shiftAmt * ra) }
      let updAcc := cv n1
      if acc ≤ updAcc then
        (acc, { n1 with Shift := n1.Shift.set ri (n1.Shift.getD ri 0 - shiftAmt * ra) })
      else
        (updAcc, n1)
    else
      let n1 := { n with Significance := n.Significance.set ri (n.Significance.getD ri 0 + sigAmt * ra) }
      let updAcc := cv n1
      if acc ≤ updAcc then
        (acc, { n1 with Significance := n1.Significance.set ri (n1.Significance.getD ri 0 - sigAmt * ra) })
      else
        (updAcc, n1)
  else
    (-1, n)

theorem set_getD_self (l : List Rat) (i : Nat) : l.set i (l.getD i 0) = l := by
  induction l generalizing i with
  | nil => rfl
  | cons a l ih =>
      cases i with
      | zero => rfl
      | succ i => simp only [List.set_cons_succ, List.getD_cons_succ, ih]

/-- Reverting `+ d` by `- d` on entry `i` restores the list exactly. -/
theorem set_add_sub_revert (l : List Rat) (i : Nat) (d : Rat) (h : i < l.length) :
    (l.set i (l.getD i 0 + d)).set i
        ((l.set i (l.getD i 0 + d)).getD i 0 - d) = l := by
  rw [getD_set_self _ _ _ h, add_sub_cancel_right, List.set_set, set_getD_self]

/-- The perturbation `FilterNoise` proposes: after the branch-forcing
rewrite of `rf` (`rf = 1` when the significance magnitude is zero, `rf =
0` when the shift magnitude is zero), the `rf > 0.5` branch adds
`shiftAmt * ra` to `Shift[ri]`, the other branch adds `sigAmt * ra` to
`Significance[ri]`. -/
def fnPerturbed (n : Neural) (sigAmt shiftAmt : Rat) (ri : Nat) (rf ra : Rat) : Neural :=
  if (if sigAmt = 0 then 1 else if shiftAmt = 0 then 0 else rf) > 1/2 then
    { n with Shift := n.Shift.set ri (n.Shift.getD ri 0 + shiftAmt * ra) }
  else
    { n with Significance := n.Significance.set ri (n.Significance.getD ri 0 + sigAmt * ra) }

/-- C7: with the perturbed index in range (the Go draw is
`random.Intn(Inputs)` and both vectors have length `Inputs`), when the
perturbed network's validation loss is not strictly smaller,
`FilterNoise` undoes the perturbation — the `Shift` and `Significance`
vectors (indeed the whole network state) equal their pre-call values —
and reports the pre-perturbation loss; when the loss does improve, the
perturbation is kept and the new loss is reported. -/
theorem filterNoise_revert_or_keep (cv : Neural → Rat) (n : Neural)
    (sigAmt shiftAmt : Rat) (ri : Nat) (rf ra : Rat)
    (hsh : ri < n.Shift.length) (hsg : ri < n.Significance.length)
    (hmag : shiftAmt ≠ 0 ∨ sigAmt ≠ 0) :
    (cv n ≤ cv (fnPerturbed n sigAmt shiftAmt ri rf ra) →
        FilterNoise cv n sigAmt shiftAmt ri rf ra = (cv n, n))
    ∧ (cv (fnPerturbed n sigAmt shiftAmt ri rf ra) < cv n →
        FilterNoise cv n sigAmt shiftAmt ri rf ra =
          (cv (fnPerturbed n sigAmt shiftAmt ri rf ra),
            fnPerturbed n sigAmt shiftAmt ri rf ra)) := by
  by_cases hrf : (if sigAmt = 0 then 1 else if shiftAmt = 0 then 0 else rf) > 1/2
  · have hpert : fnPerturbed n sigAmt shiftAmt ri rf ra =
        { n with Shift := n.Shift.set ri (n.Shift.getD ri 0 + shiftAmt * ra) } := by
      rw [fnPerturbed, if_pos hrf]
    constructor
    · intro hle
      rw [hpert] at hle
      rw [FilterNoise, if_pos hmag]
      simp only [hrf, if_true, hle, if_pos]
      have hrev := set_add_sub_revert n.Shift ri (shiftAmt * ra) hsh
      cases n with
      | mk sh sg ls cfg =>
          simp only [List.getD_eq_getElem?_getD, List.set_set] at hrev
          simp [hrev]
    · intro hlt
      rw [hpert] at hlt ⊢
      rw [FilterNoise, if_pos hmag]
      simp only [hrf, if_true, not_le.mpr hlt, if_neg, not_le]
      simp
  · have hpert : fnPerturbed n sigAmt shiftAmt ri rf ra =
        { n with Significance := n.Significance.set ri (n.Significance.getD ri 0 + sigAmt * ra) } := by
      rw [fnPerturbed, if_neg hrf]
    constructor
    · intro hle
      rw [hpert] at hle
      rw [FilterNoise, if_pos hmag]
      simp only [hrf, if_false, hle, if_pos]
      have hrev := set_add_sub_revert n.Significance ri (sigAmt * ra) hsg
      cases n with
      | mk sh sg ls cfg =>
          simp only [List.getD_eq_getElem?_getD, List.set_set] at hrev
          simp [hrev]
    · intro hlt
      rw [hpert] at hlt ⊢
      rw [FilterNoise, if_pos hmag]
      simp only [hrf, if_false, not_le.mpr hlt, if_neg, not_le]

/-- A concrete loss evaluator for exercising
`filterNoise_revert_or_keep`: the loss is the first shift entry, so the
proposed positive shift perturbation raises it and is rejected. -/
def cvW : Neural → Rat := fun m => m.Shift.headD 0

def nW : Neural :=
  { Shift := [0]
    Significance := [1]
    Layers := []
    config := { Inputs := 1, Layout := [1], Activation := [ActivationSigmoid],
                Mode := ModeDefault, Loss := LossMeanSquared, Bias := false,
                Significance := 1, Shift := 1 } }

/-- Concrete run of `filterNoise_revert_or_keep` at `nW` with magnitudes
`1`, index `0`, draws `rf = 3/5`, `ra = 1`: the shift branch is taken,
the perturbation does not lower the loss, so the call reports the old
loss and restores the vectors. -/
theorem filterNoise_revert_or_keep_witness :
    (cvW nW ≤ cvW (fnPerturbed nW 1 1 0 (3/5) 1) →
        FilterNoise cvW nW 1 1 0 (3/5) 1 = (cvW nW, nW))
    ∧ (cvW (fnPerturbed nW 1 1 0 (3/5) 1) < cvW nW →
        FilterNoise cvW nW 1 1 0 (3/5) 1 =
          (cvW (fnPerturbed nW 1 1 0 (3/5) 1), fnPerturbed nW 1 1 0 (3/5) 1)) :=
  filterNoise_revert_or_keep cvW nW 1 1 0 (3/5) 1 (by decide) (by decide)
    (Or.inl (by norm_num))

/-! ## The batch trainer's solver indexing (claim C1)

`BatchTrainer.update` (src/training/batchTrainer.go lines 250-285) walks,
for every layer `i` concurrently, the layer's neurons `j` and each
neuron's incoming synapses `k`, calling
`t.solver.Update(s.Weight, jAD[k], it, idx)` — and its per-layer counter
is initialised as `idx := i`, the layer index, before being incremented
per synapse.  The model below reproduces that numbering over a network
shape given as the per-layer list of per-neuron incoming-synapse counts
(src/neural.go's construction: layer 0 has `Inputs` synapses per neuron,
layer `i+1` has `Layout[i]` per neuron). -/

/-- The `(j, k)` walk of one layer with the running counter: for each
neuron (with `c` incoming synapses) the synapses `k < c` get consecutive
indices, and the counter advances by `c`. -/
def layerFlatIdx (i j idx : Nat) : List Nat → List ((Nat × Nat × Nat) × Nat)
  | [] => []
  | c :: rest =>
      ((List.range c).map fun k => ((i, j, k), idx + k))
        ++ layerFlatIdx i (j + 1) (idx + c) rest

/-- The flat indices `BatchTrainer.update` passes to `Solver.Update`, as
`((layer, neuron, synapse), flatIndex)` pairs: each layer's goroutine
starts its counter at its own layer index (`idx := i`). -/
def updateFlatIdx (shape : List (List Nat)) : List ((Nat × Nat × Nat) × Nat) :=
  go 0 shape
where
  go (i : Nat) : List (List Nat) → List ((Nat × Nat × Nat) × Nat)
    | [] => []
    | l :: rest => layerFlatIdx i 0 i l ++ go (i + 1) rest

/-- `Neural.NumWeights` over a shape (src/neural.go lines 172-179): the
count `t.solver.Init` is called with. -/
def numWeightsShape (shape : List (List Nat)) : Nat :=
  (shape.map List.sum).sum

/-- The shape of the network built from `Config{Inputs: 2, Layout: [1, 1],
Bias: false}`: one layer-0 neuron with 2 incoming synapses, one layer-1
neuron with 1 incoming synapse. -/
def shape211 : List (List Nat) := [[2], [1]]

/-- C1 fails on the code: on the `Config{Inputs: 2, Layout: [1, 1]}`
network, whose solver is initialised for `NumWeights = 3` accumulators,
the distinct weights `(layer 0, neuron 0, synapse 1)` and `(layer 1,
neuron 0, synapse 0)` are both passed `flatIndex = 1` — the indices used
are `[0, 1, 1]`, not a globally unique numbering — because each layer's
counter restarts at the layer index instead of continuing across
layers.  (Stability across calls holds: the numbering is a function of
the shape alone.) -/
theorem updateFlatIdx_collision :
    ((0, 0, 1), 1) ∈ updateFlatIdx shape211
    ∧ ((1, 0, 0), 1) ∈ updateFlatIdx shape211
    ∧ ((0, 0, 1) : Nat × Nat × Nat) ≠ (1, 0, 0)
    ∧ (updateFlatIdx shape211).map Prod.snd = [0, 1, 1]
    ∧ numWeightsShape shape211 = 3 := by
  decide

/-! ## The batch trainer's apply-step wait loop (claim C2)

At the end of `BatchTrainer.update`, each of the `len(n.Layers)`
per-layer goroutines signals completion by sending `false` on the
buffered channel `ch`, and the caller waits with

  for <-ch {
  }

which receives one value, runs the (empty) body only while the value is
`true`, and exits on the first `false`.  `Train` then proceeds to the
next batch: it reads `n.Weights()` and broadcasts them into the worker
replicas.  The model below counts how many completion signals that loop
consumes from the stream of sent values.  (Contrast the reduction
barrier a few lines above, `for _, _ = range t.partialDeltas { <-ch }`,
which consumes one signal per worker.) -/

/-- `for <-ch { }` over the sequence of values the channel delivers:
consume a value; if it is `true` loop, on `false` stop.  Returns the
number of values consumed. -/
def recvWhileTrue : List Bool → Nat
  | [] => 0
  | b :: rest => if b then recvWhileTrue rest + 1 else 1

/-- C2 fails on the code: the apply step spawns one goroutine per layer
and every goroutine sends `false`, so on any network with `L ≥ 2` layers
the wait loop `for <-ch { }` returns after consuming exactly one of the
`L` completion signals — `BatchTrainer.update` can return while `L - 1`
per-layer weight writes are still pending, and `Train` then immediately
reads and broadcasts the weights for the next batch. -/
theorem update_wait_consumes_one_signal :
    (∀ L : Nat, recvWhileTrue (List.replicate (L + 1) false) = 1)
    ∧ recvWhileTrue (List.replicate 2 false) = 1
    ∧ recvWhileTrue (List.replicate 2 false) < 2 := by
  refine ⟨fun L => ?_, by decide, by decide⟩
  simp [List.replicate, recvWhileTrue]

/-! ## Swish/Mish memoisation (claim C3)

src/activation.go's `Swish` and `Mish` (and part_002's variants) carry a
`Mem map[float32]float32`.  Their `F` has a *value* receiver: it lazily
allocates the map on its local copy (`Swish{}` starts with a nil map)
and, in training mode, records `Mem[output] = input` — on that local
copy, which is dropped when `F` returns.  `Neuron.Activate` and
`Neuron.DActivate` (part_004) each call `GetActivation(n.A)`, which
builds a *fresh* value with a nil map.  The model makes both receivers
explicit: `F`/`Df` return the mutated copy, and the neuron-level calls
feed them the fresh value `GetActivation` yields and discard the
returned copy, exactly as the Go call sites do. -/

/-- The Go `map[float32]float32` as an association list; a nil map is
`[]`. -/
def Mem := List (Rat × Rat)
deriving DecidableEq

/-- Go map read `m[y]`: the stored value, or the zero value 0 on a
miss. -/
def memLookup : Mem → Rat → Rat
  | [], _ => 0
  | (k, v) :: rest, y => if k = y then v else memLookup rest y

/-- Go `delete(m, y)`. -/
def memErase (m : Mem) (y : Rat) : Mem :=
  m.filter fun p => decide (p.1 ≠ y)

/-- Go map write `m[k] = v`. -/
def memInsert (m : Mem) (k v : Rat) : Mem :=
  (k, v) :: memErase m k

/-- A `Swish` value: just its memo map. -/
structure SwishSt where
  mem : Mem
deriving DecidableEq

/-- `GetActivation(ActivationSwish)` constructs `Swish{}`: nil map. -/
def getActivationSwish : SwishSt := { mem := [] }

/-- `Swish.F(x, training)` (src/activation.go lines 167-177): computes
`ans = x * Logistic(x, 1)`, records `Mem[ans] = x` when training, and
returns `ans` together with the mutated receiver copy. -/
def SwishSt.F (a : SwishSt) (ops : RealOps) (x : Rat) (training : Bool) :
    Rat × SwishSt :=
  let ans := x * Logistic ops x 1
  (ans, if training then { mem := memInsert a.mem ans x } else a)

/-- `Swish.Df(y)` (src/activation.go lines 180-186): reads `x = Mem[y]`,
deletes the entry, and computes `y * (sigX * (1 + x*(1-sigX)))` with
`sigX = Logistic(x, 1)`.  Returns the derivative and the mutated
receiver copy. -/
def SwishSt.Df (a : SwishSt) (ops : RealOps) (y : Rat) : Rat × SwishSt :=
  let x := memLookup a.mem y
  let sigX := Logistic ops x 1
  (y * (sigX * (1 + x * (1 - sigX))), { mem := memErase a.mem y })

/-- `Neuron.Activate` for a Swish neuron: `GetActivation(...)` yields a
fresh `Swish{}`, `F` runs on it, and the mutated copy is dropped — only
the value survives. -/
def neuronActivateSwish (ops : RealOps) (x : Rat) (training : Bool) : Rat :=
  (getActivationSwish.F ops x training).1

/-- `Neuron.DActivate` for a Swish neuron: again through
`GetActivation`, so `Df` runs on a fresh `Swish{}` whose map is nil; the
`x` it retrieves is `memLookup [] y`. -/
def neuronDActivateSwish (ops : RealOps) (y : Rat) : Rat :=
  (getActivationSwish.Df ops y).1

/-- The original input `Df` retrieves for output `y` at the neuron call
site. -/
def neuronDActivateSwishLookup (y : Rat) : Rat :=
  memLookup getActivationSwish.mem y

/-- C3 fails on the code: a training-mode `Swish.F` call does record the
`output → input` pair, but only on the local receiver copy that
`Neuron.Activate` drops, and `Neuron.DActivate` hands `Df` another fresh
`Swish{}` — so the lookup misses for every output and yields the map
zero value `0`, never the stored input.  Concretely, forwarding `x = 1`
in training mode stores `(F(1), 1)` in the dropped copy, yet the input
the subsequent derivative call uses is `0 ≠ 1`; the derivative is
computed as if the original input had been `0`. -/
theorem swish_memo_never_reaches_Df (ops : RealOps) (x y : Rat) :
    ((getActivationSwish.F ops x true).2.mem = [(x * Logistic ops x 1, x)])
    ∧ neuronActivateSwish ops x true = (getActivationSwish.F ops x true).1
    ∧ neuronDActivateSwishLookup y = 0
    ∧ (neuronDActivateSwishLookup (neuronActivateSwish ops 1 true) = 0
        ∧ (0 : Rat) ≠ 1)
    ∧ neuronDActivateSwish ops y =
        y * (Logistic ops 0 1 * (1 + 0 * (1 - Logistic ops 0 1))) := by
  refine ⟨rfl, rfl, rfl, ⟨rfl, by norm_num⟩, rfl⟩
